import Mathlib

/-!
Verification of the WONE race-registry normalization and deduplication core
(`src/scrapers/normalizer.py`). The Python values flowing through the
normalizer (parsed JSON) are embedded as the inductive type `Val`; the
normalizer and deduplicator are translated function by function. Python
string operations used by the source (`str()`, `.strip()`, `.lower()`,
`.replace("  ", " ")`, truthiness) are modelled explicitly.
-/

/-- Parsed-JSON values as passed to `normalize_events` (plus `vnull` for
Python `None`). Dicts are association lists with string keys; lookup takes
the first matching key, which coincides with Python dict lookup since a
Python dict holds each key once. -/
inductive Val : Type where
  | vnull : Val
  | vbool : Bool → Val
  | vint : Int → Val
  | vstr : String → Val
  | vlist : List Val → Val
  | vdict : List (String × Val) → Val

/-- Python `repr` for embedded values. Strings are rendered single-quoted
without escape processing; the claims never inspect the repr of a string
beyond the fact that a quoted string is non-empty, so escape handling is
irrelevant to every statement below. -/
def pyRepr : Val → String
  | .vnull => "None"
  | .vbool true => "True"
  | .vbool false => "False"
  | .vint n => toString n
  | .vstr s => "'" ++ s ++ "'"
  | .vlist xs => "[" ++ String.intercalate ", " (xs.attach.map (fun x => pyRepr x.1)) ++ "]"
  | .vdict kvs =>
      "\x7b" ++ String.intercalate ", "
        (kvs.attach.map (fun p => "'" ++ p.1.1 ++ "': " ++ pyRepr p.1.2)) ++ "\x7d"
decreasing_by
  · rcases x with ⟨v, hv⟩
    have := List.sizeOf_lt_of_mem hv
    simp at this ⊢; omega
  · rcases p with ⟨⟨a, b⟩, hm⟩
    have := List.sizeOf_lt_of_mem hm
    simp at this ⊢; omega

/-- Python `str()`. Identity on strings, `repr` on everything else (this is
exactly CPython behaviour for `None`, booleans, ints, lists and dicts).
Scalar cases are spelled out so the function reduces definitionally. -/
def pyStr : Val → String
  | .vnull => "None"
  | .vbool true => "True"
  | .vbool false => "False"
  | .vint n => toString n
  | .vstr s => s
  | .vlist xs => pyRepr (.vlist xs)
  | .vdict kvs => pyRepr (.vdict kvs)

/-- Python truthiness (`bool(v)`). -/
def pyTruthy : Val → Bool
  | .vnull => false
  | .vbool b => b
  | .vint n => n != 0
  | .vstr s => s != ""
  | .vlist xs => !xs.isEmpty
  | .vdict kvs => !kvs.isEmpty

/-- The whitespace characters removed by Python `str.strip()` (the ASCII
ones; no claim involves exotic Unicode whitespace). -/
def isPySpace (c : Char) : Bool :=
  c = ' ' || c = '\t' || c = '\n' || c = '\x0d' || c = '\x0b' || c = '\x0c'

/-- `str.strip()` on a character list. -/
def pyStripList (l : List Char) : List Char :=
  ((l.dropWhile isPySpace).reverse.dropWhile isPySpace).reverse

/-- Python `s.strip()`. -/
def pyStrip (s : String) : String := ⟨pyStripList s.data⟩

/-- Python `s.lower()` (ASCII case mapping; the claims use ASCII names). -/
def pyLower (s : String) : String := ⟨s.data.map Char.toLower⟩

/-- Python `s.replace("  ", " ")`: one left-to-right pass replacing each
non-overlapping occurrence of two spaces by one space, resuming the scan
after the replacement. -/
def replaceDoubleSpace : List Char → List Char
  | ' ' :: ' ' :: rest => ' ' :: replaceDoubleSpace rest
  | c :: rest => c :: replaceDoubleSpace rest
  | [] => []

/-- Python `d.get(k)` on an embedded dict, `none` when the key is absent. -/
def dictGet (kvs : List (String × Val)) (k : String) : Option Val :=
  (kvs.find? (fun p => p.1 = k)).map Prod.snd

/-- `True` exactly for embedded dicts (Python `isinstance(x, dict)`). -/
def Val.isDict : Val → Bool
  | .vdict _ => true
  | _ => false

/-- Python `v is None` on an embedded value. -/
def Val.isNull : Val → Bool
  | .vnull => true
  | _ => false

/-- `_first(d, keys)` from normalizer.py: the first value among the listed
keys that is present, not `None`, and whose `str()` form is non-empty after
stripping; `none` when no key qualifies. -/
def first_val (kvs : List (String × Val)) : List String → Option Val
  | [] => none
  | k :: ks =>
    match dictGet kvs k with
    | some v =>
        if !v.isNull && pyStrip (pyStr v) != "" then some v
        else first_val kvs ks
    | none => first_val kvs ks

/-- `_clean(value)` from normalizer.py: `""` for `None`/absent, otherwise
`str(value).strip()`. -/
def clean : Option Val → String
  | none => ""
  | some v => if v.isNull then "" else pyStrip (pyStr v)

/-- The envelope keys scanned by `_extract_items`, in source order. -/
def envelopeKeys : List String :=
  ["events", "data", "results", "races", "items", "list", "eventList", "Events", "Data"]

/-- The name-like keys whose top-level presence makes `_extract_items`
treat a dict as a single event. -/
def singleItemNameKeys : List String :=
  ["name", "event_name", "race_name", "title", "EventName"]

/-- The scan of `_extract_items` over the envelope keys: the value of the
first listed key that is present with a list value. -/
def findEnvelope (kvs : List (String × Val)) : List String → Option (List Val)
  | [] => none
  | k :: ks =>
    match dictGet kvs k with
    | some (.vlist xs) => some xs
    | _ => findEnvelope kvs ks

/-- `True` when the dict has any of the single-item name keys at top level
(`any(k in raw for k in [...])` in `_extract_items`). -/
def hasNameKey (kvs : List (String × Val)) : Bool :=
  singleItemNameKeys.any (fun k => kvs.any (fun p => p.1 = k))

/-- `_extract_items(raw)` from normalizer.py. -/
def extract_items : Val → List Val
  | .vlist xs => xs
  | .vdict kvs =>
    match findEnvelope kvs envelopeKeys with
    | some xs => xs
    | none => if hasNameKey kvs then [.vdict kvs] else []
  | _ => []

/-- The name aliases scanned by `_is_event`, in source order. -/
def isEventNameKeys : List String :=
  ["event_name", "name", "race_name", "title", "EventName", "eventName"]

/-- `_is_event(item)` from normalizer.py: item is a dict and
`bool(name and str(name).strip())` for `name = _first(item, ...)`. -/
def is_event : Val → Bool
  | .vdict kvs =>
    match first_val kvs isEventNameKeys with
    | some v => pyTruthy v && pyStrip (pyStr v) != ""
    | none => false
  | _ => false

/-- The canonical output record of `_normalize_item` (the SCHEMA of
normalizer.py). `year` embeds the optional extra `"year"` dict entry some
callers attach before dedup; `_normalize_item` never populates it. -/
structure Record : Type where
  race_name : String
  race_date : String
  city : String
  distances : String
  participant_count : String
  event_id : String
  timing_company : String
  source_url : String
  year : Option Val := none

/-- The alias list populating `race_name` in `_normalize_item`. -/
def raceNameKeys : List String :=
  ["event_name", "name", "race_name", "title",
   "EventName", "eventName", "RaceName", "event"]

/-- The alias list populating `race_date` in `_normalize_item`. -/
def raceDateKeys : List String :=
  ["race_date", "date", "event_date", "start_date",
   "EventDate", "eventDate", "RaceDate", "scheduled_date"]

/-- The alias list populating `city` in `_normalize_item`. -/
def cityKeys : List String :=
  ["city", "location", "venue", "place",
   "City", "Location", "Venue", "Place"]

/-- The alias list populating `distances` in `_normalize_item`. -/
def distancesKeys : List String :=
  ["categories", "distances", "race_types",
   "Categories", "Distances", "race_categories"]

/-- The alias list populating `participant_count` in `_normalize_item`. -/
def participantCountKeys : List String :=
  ["participant_count", "participants", "total_participants",
   "count", "total_runners", "finishers", "ParticipantCount"]

/-- The alias list populating `event_id` in `_normalize_item`. -/
def eventIdKeys : List String :=
  ["id", "event_id", "race_id", "EventId", "Id"]

/-- `_normalize_item(item, source, source_url)` from normalizer.py. -/
def normalize_item (kvs : List (String × Val)) (source source_url : String) : Record :=
  { race_name := clean (first_val kvs raceNameKeys)
    race_date := clean (first_val kvs raceDateKeys)
    city := clean (first_val kvs cityKeys)
    distances := clean (first_val kvs distancesKeys)
    participant_count := clean (first_val kvs participantCountKeys)
    event_id := clean (first_val kvs eventIdKeys)
    timing_company := source
    source_url := source_url
    year := none }

/-- `normalize_events(raw, source, source_url)` from normalizer.py:
`[_normalize_item(item, source, source_url) for item in _extract_items(raw)
if _is_event(item)]`. Items passing `_is_event` are dicts, so the non-dict
arm is unreachable. -/
def normalize_events (raw : Val) (source source_url : String) : List Record :=
  (extract_items raw).filterMap (fun item =>
    match item with
    | .vdict kvs =>
        if is_event (.vdict kvs) then some (normalize_item kvs source source_url)
        else none
    | _ => none)

/-- The name component of `_dedup_key`:
`race_name.lower().strip().replace("  ", " ")`. -/
def dedupNameNorm (s : String) : String :=
  ⟨replaceDoubleSpace (pyStripList (s.data.map Char.toLower))⟩

/-- `_dedup_key(event)` from normalizer.py. `event.get("race_name", "")`
and `event.get("race_date", "")` read the schema fields; `event.get("year",
"")` reads the optional extra entry, defaulting to `""`; the final
`str(year)` is `pyStr`. -/
def dedup_key (e : Record) : String × String :=
  let name_norm := dedupNameNorm e.race_name
  let year : String :=
    if e.race_date.length ≥ 4 then ⟨e.race_date.data.take 4⟩
    else pyStr (e.year.getD (.vstr ""))
  (name_norm, year)

/-- The loop of `dedup_events`, with the seen-key set made explicit (the
Python `set` is modelled as the list of keys added so far; only membership
is used, so the two agree). -/
def dedupAux (seen : List (String × String)) : List Record → List Record × List Record
  | [] => ([], [])
  | e :: rest =>
    if dedup_key e ∈ seen then
      ((dedupAux seen rest).1, e :: (dedupAux seen rest).2)
    else
      (e :: (dedupAux (dedup_key e :: seen) rest).1,
       (dedupAux (dedup_key e :: seen) rest).2)

/-- `dedup_events(events)` from normalizer.py. -/
def dedup_events (events : List Record) : List Record × List Record :=
  dedupAux [] events

theorem dedupAux_filter_key (seen : List (String × String)) (R : List Record)
    (k : String × String) :
    (k ∈ seen →
      (dedupAux seen R).1.filter (fun e => dedup_key e = k) = [] ∧
      (dedupAux seen R).2.filter (fun e => dedup_key e = k)
        = R.filter (fun e => dedup_key e = k)) ∧
    (k ∉ seen →
      (dedupAux seen R).1.filter (fun e => dedup_key e = k)
        = (R.filter (fun e => dedup_key e = k)).take 1 ∧
      (dedupAux seen R).2.filter (fun e => dedup_key e = k)
        = (R.filter (fun e => dedup_key e = k)).drop 1) := by
  induction R generalizing seen with
  | nil => simp [dedupAux]
  | cons e rest ih =>
    by_cases h : dedup_key e ∈ seen
    · simp only [dedupAux, if_pos h]
      constructor
      · intro hk
        by_cases hc : dedup_key e = k
        · subst hc
          refine ⟨((ih seen).1 hk).1, ?_⟩
          simp [List.filter_cons, ((ih seen).1 hk).2]
        · refine ⟨((ih seen).1 hk).1, ?_⟩
          simp [List.filter_cons, hc, ((ih seen).1 hk).2]
      · intro hk
        have hc : ¬(dedup_key e = k) := fun hc => hk (hc ▸ h)
        have h2 := (ih seen).2 hk
        simp only [List.filter_cons, hc, decide_eq_true_eq, if_neg]
        exact h2
    · simp only [dedupAux, if_neg h]
      constructor
      · intro hk
        have hc : ¬(dedup_key e = k) := fun hc => h (hc ▸ hk)
        have hk' : k ∈ dedup_key e :: seen := List.mem_cons_of_mem _ hk
        have h1 := (ih (dedup_key e :: seen)).1 hk'
        simp only [List.filter_cons, hc, decide_eq_true_eq, if_neg]
        exact ⟨h1.1, h1.2⟩
      · intro hk
        by_cases hc : dedup_key e = k
        · subst hc
          have h1 := (ih (dedup_key e :: seen)).1 (List.mem_cons_self _ _)
          simp [List.filter_cons, h1.1, h1.2]
        · have hk' : k ∉ dedup_key e :: seen := by
            simp only [List.mem_cons]
            push_neg
            exact ⟨fun hh => hc hh.symm, hk⟩
          have h2 := (ih (dedup_key e :: seen)).2 hk'
          simp only [List.filter_cons, hc, decide_eq_true_eq, if_neg]
          exact h2

theorem dedupAux_perm (seen : List (String × String)) (R : List Record) :
    ((dedupAux seen R).1 ++ (dedupAux seen R).2).Perm R := by
  induction R generalizing seen with
  | nil => simp [dedupAux]
  | cons e rest ih =>
    by_cases h : dedup_key e ∈ seen
    · simp only [dedupAux, if_pos h]
      exact List.perm_middle.trans ((ih seen).cons e)
    · simp only [dedupAux, if_neg h]
      exact (ih (dedup_key e :: seen)).cons e

theorem dedupAux_sublist (seen : List (String × String)) (R : List Record) :
    (dedupAux seen R).1.Sublist R ∧ (dedupAux seen R).2.Sublist R := by
  induction R generalizing seen with
  | nil => simp [dedupAux]
  | cons e rest ih =>
    by_cases h : dedup_key e ∈ seen
    · simp only [dedupAux, if_pos h]
      exact ⟨List.Sublist.cons e (ih seen).1, List.Sublist.cons₂ e (ih seen).2⟩
    · simp only [dedupAux, if_neg h]
      exact ⟨List.Sublist.cons₂ e (ih _).1, List.Sublist.cons e (ih _).2⟩

theorem dedupAux_keys_nodup (seen : List (String × String)) (R : List Record) :
    (∀ k ∈ seen, k ∉ (dedupAux seen R).1.map dedup_key) ∧
    ((dedupAux seen R).1.map dedup_key).Nodup := by
  induction R generalizing seen with
  | nil => simp [dedupAux]
  | cons e rest ih =>
    by_cases h : dedup_key e ∈ seen
    · simp only [dedupAux, if_pos h]
      exact ih seen
    · simp only [dedupAux, if_neg h]
      constructor
      · intro k hk
        simp only [List.map_cons, List.mem_cons]
        push_neg
        refine ⟨fun hh => h (hh ▸ hk), ?_⟩
        exact (ih (dedup_key e :: seen)).1 k (List.mem_cons_of_mem _ hk)
      · simp only [List.map_cons, List.nodup_cons]
        exact ⟨(ih _).1 _ (List.mem_cons_self _ _), (ih _).2⟩

/-- **C1.** For every list `R` of records, `dedup_events R` returns a pair
`(unique, duplicates)` partitioning `R` exactly: the two outputs together
are a permutation of `R`, their lengths sum to `R.length`, each output
preserves the relative input order (is a sublist of `R`), for every dedup
key the first record of `R` bearing it lands in `unique` and all later
ones in `duplicates`, and the dedup keys of `unique` are pairwise
distinct. -/
theorem C1_dedup_partitions (R : List Record) :
    ((dedup_events R).1 ++ (dedup_events R).2).Perm R ∧
    (dedup_events R).1.length + (dedup_events R).2.length = R.length ∧
    (dedup_events R).1.Sublist R ∧
    (dedup_events R).2.Sublist R ∧
    (∀ k : String × String,
      (dedup_events R).1.filter (fun e => dedup_key e = k)
        = (R.filter (fun e => dedup_key e = k)).take 1 ∧
      (dedup_events R).2.filter (fun e => dedup_key e = k)
        = (R.filter (fun e => dedup_key e = k)).drop 1) ∧
    ((dedup_events R).1.map dedup_key).Nodup := by
  refine ⟨dedupAux_perm [] R, ?_, (dedupAux_sublist [] R).1, (dedupAux_sublist [] R).2,
    fun k => (dedupAux_filter_key [] R k).2 (by simp), (dedupAux_keys_nodup [] R).2⟩
  have h := (dedupAux_perm [] R).length_eq
  simpa using h

/-- C2's validity criterion as the claim words it: some alias of the
`race_name` alias list is present with a value whose string form is
non-empty after trimming. -/
def hasRaceNameAliasValue (kvs : List (String × Val)) : Bool :=
  raceNameKeys.any (fun k =>
    match dictGet kvs k with
    | some v => !v.isNull && pyStrip (pyStr v) != ""
    | none => false)

/-- The per-item record mapping, totalised so that order preservation can
be stated with `List.map`; the non-dict arm is never reached because
`_is_event` rejects non-dicts. -/
def itemRecord (s u : String) : Val → Record
  | .vdict kvs => normalize_item kvs s u
  | _ => normalize_item [] s u

theorem filterMap_eq_filter_map (s u : String) (L : List Val) :
    L.filterMap (fun item =>
      match item with
      | .vdict kvs =>
          if is_event (.vdict kvs) then some (normalize_item kvs s u)
          else none
      | _ => none)
    = (L.filter is_event).map (itemRecord s u) := by
  induction L with
  | nil => rfl
  | cons v rest ih =>
    cases v with
    | vdict kvs =>
      by_cases h : is_event (.vdict kvs) = true
      · simp [List.filterMap_cons, List.filter_cons, h, itemRecord, ih]
      · simp [List.filterMap_cons, List.filter_cons, h, ih]
    | vnull => simpa [List.filterMap_cons, List.filter_cons, is_event] using ih
    | vbool b => simpa [List.filterMap_cons, List.filter_cons, is_event] using ih
    | vint n => simpa [List.filterMap_cons, List.filter_cons, is_event] using ih
    | vstr t => simpa [List.filterMap_cons, List.filter_cons, is_event] using ih
    | vlist xs => simpa [List.filterMap_cons, List.filter_cons, is_event] using ih

/-- **C2 (counterexample).** The claim's validity criterion uses the
`race_name` alias list, but an item whose only name-bearing key is
`"RaceName"` — an alias of that list — satisfies the criterion and is still
dropped, because `_is_event` scans a shorter alias list. -/
theorem C2_counterexample :
    hasRaceNameAliasValue [("RaceName", .vstr "Goa Run")] = true ∧
    (normalize_item [("RaceName", .vstr "Goa Run")] "s" "u").race_name = "Goa Run" ∧
    normalize_events (.vlist [.vdict [("RaceName", .vstr "Goa Run")]]) "s" "u" = [] :=
  ⟨rfl, rfl, rfl⟩

/-- **C2 (amended).** For every list `S` of items, `normalize_events`
emits exactly one record per item accepted by `_is_event` (a mapping whose
first entry among the aliases event_name, name, race_name, title,
EventName, eventName that is present, non-None and non-blank after string
conversion and trimming exists and is Python-truthy), in the same relative
order as those items appear in `S`, and emits no record for any other
item. -/
theorem C2_one_record_per_valid_item (S : List Val) (s u : String) :
    normalize_events (.vlist S) s u = (S.filter is_event).map (itemRecord s u) ∧
    (normalize_events (.vlist S) s u).length = (S.filter is_event).length := by
  have h : normalize_events (.vlist S) s u = (S.filter is_event).map (itemRecord s u) := by
    rw [normalize_events]
    exact filterMap_eq_filter_map s u S
  exact ⟨h, by rw [h, List.length_map]⟩

/-- C3's dedup key as the claim words it: name lower-cased and
whitespace-trimmed; year taken from the first four characters of
`race_date` only when that slice is long enough and looks numeric, else
the fallback `year` field, else the empty string. -/
def dedupKeyClaimed (e : Record) : String × String :=
  let slice := e.race_date.data.take 4
  (pyStrip (pyLower e.race_name),
   if slice.length = 4 && slice.all Char.isDigit then ⟨slice⟩
   else
     match e.year with
     | some v => pyStr v
     | none => "")

/-- A concrete record for counterexamples and witnesses. -/
def sampleRec (n d : String) (y : Option Val := none) : Record :=
  { race_name := n, race_date := d, city := "", distances := "",
    participant_count := "", event_id := "", timing_company := "STS",
    source_url := "https://x/y", year := y }

/-- Single-pass dedup on a two-element list, as a function of key
equality. -/
theorem dedup_pair (a b : Record) :
    dedup_events [a, b]
      = if dedup_key a = dedup_key b then ([a], [b]) else ([a, b], []) := by
  by_cases h : dedup_key a = dedup_key b
  · simp [dedup_events, dedupAux, h]
  · have h' : ¬dedup_key b = dedup_key a := fun hh => h hh.symm
    simp [dedup_events, dedupAux, h, h']

/-- **C3 (counterexample).** The code never checks that the 4-character
date slice is numeric: on `race_date = "noda-te"` with fallback
`year = "2024"` the code keys on `"noda"` while the claimed key falls back
to `"2024"`, so two records the claim declares the same event are kept as
two unique records; and the code additionally collapses double spaces in
the name, which the claimed key (lower-case + trim only) does not. -/
theorem C3_counterexample :
    dedupKeyClaimed (sampleRec "Goa Run" "noda-te" (some (.vstr "2024")))
      = ("goa run", "2024") ∧
    dedupKeyClaimed (sampleRec "Goa Run" "2024-05-01") = ("goa run", "2024") ∧
    dedup_key (sampleRec "Goa Run" "noda-te" (some (.vstr "2024")))
      = ("goa run", "noda") ∧
    dedup_key (sampleRec "Goa Run" "2024-05-01") = ("goa run", "2024") ∧
    dedup_events [sampleRec "Goa Run" "noda-te" (some (.vstr "2024")),
                  sampleRec "Goa Run" "2024-05-01"]
      = ([sampleRec "Goa Run" "noda-te" (some (.vstr "2024")),
          sampleRec "Goa Run" "2024-05-01"], []) ∧
    dedupKeyClaimed (sampleRec "A  B" "") = ("a  b", "") ∧
    dedup_key (sampleRec "A  B" "") = ("a b", "") :=
  ⟨rfl, rfl, rfl, rfl, rfl, rfl, rfl⟩

/-- **C3 (amended).** The dedup key is the pair (race_name lower-cased,
trimmed, and with each non-overlapping run of two spaces collapsed once
left-to-right; year), where year is the first 4 characters of `race_date`
whenever `race_date` has at least 4 characters — numeric or not — else the
string form of the record's fallback `year` field, else the empty string;
and `dedup_events` treats two records as the same event exactly when these
keys are equal. -/
theorem C3_dedup_key_characterization (e a b : Record) :
    dedup_key e
      = (dedupNameNorm e.race_name,
         if 4 ≤ e.race_date.length then ⟨e.race_date.data.take 4⟩
         else
           match e.year with
           | some v => pyStr v
           | none => "") ∧
    dedup_events [a, b]
      = (if dedup_key a = dedup_key b then ([a], [b]) else ([a, b], [])) := by
  constructor
  · cases hy : e.year <;> simp [dedup_key, hy, pyStr]
  · exact dedup_pair a b

/-- **C10.** The dedup-key name normalization is a single left-to-right
double-space replacement pass, not a collapse to fixpoint: with equal year
components, race names "A  B" (two inner spaces) and "A B" share a dedup
key and are deduplicated as one event, while "A   B" (three inner spaces)
and "A B" do not and are both kept unique. -/
theorem C10_single_pass_space_collapse (a a' b : Record)
    (hy : (dedup_key a).2 = (dedup_key b).2)
    (hy' : (dedup_key a').2 = (dedup_key b).2)
    (ha : a.race_name = "A  B") (ha' : a'.race_name = "A   B")
    (hb : b.race_name = "A B") :
    dedup_key a = dedup_key b ∧
    dedup_events [a, b] = ([a], [b]) ∧
    dedup_key a' ≠ dedup_key b ∧
    dedup_events [a', b] = ([a', b], []) := by
  have n1 : (dedup_key a).1 = "a b" := by
    rw [show (dedup_key a).1 = dedupNameNorm a.race_name from rfl, ha]; rfl
  have n2 : (dedup_key a').1 = "a  b" := by
    rw [show (dedup_key a').1 = dedupNameNorm a'.race_name from rfl, ha']; rfl
  have n3 : (dedup_key b).1 = "a b" := by
    rw [show (dedup_key b).1 = dedupNameNorm b.race_name from rfl, hb]; rfl
  have k1 : dedup_key a = dedup_key b := Prod.ext (n1.trans n3.symm) hy
  have k2 : dedup_key a' ≠ dedup_key b := by
    intro h
    have hfst := congrArg Prod.fst h
    rw [n2, n3] at hfst
    exact absurd hfst (by decide)
  refine ⟨k1, ?_, k2, ?_⟩
  · rw [dedup_pair, if_pos k1]
  · rw [dedup_pair, if_neg k2]

/-- **C10 (witness).** The theorem applied to concrete records sharing
the date "2024-01-01". -/
theorem C10_single_pass_space_collapse_witness :
    dedup_key (sampleRec "A  B" "2024-01-01")
      = dedup_key (sampleRec "A B" "2024-01-01") ∧
    dedup_events [sampleRec "A  B" "2024-01-01", sampleRec "A B" "2024-01-01"]
      = ([sampleRec "A  B" "2024-01-01"], [sampleRec "A B" "2024-01-01"]) ∧
    dedup_key (sampleRec "A   B" "2024-01-01")
      ≠ dedup_key (sampleRec "A B" "2024-01-01") ∧
    dedup_events [sampleRec "A   B" "2024-01-01", sampleRec "A B" "2024-01-01"]
      = ([sampleRec "A   B" "2024-01-01", sampleRec "A B" "2024-01-01"], []) :=
  C10_single_pass_space_collapse
    (sampleRec "A  B" "2024-01-01") (sampleRec "A   B" "2024-01-01")
    (sampleRec "A B" "2024-01-01") rfl rfl rfl rfl rfl

theorem findEnvelope_singleton (k : String) (L : List Val) (ks : List String)
    (hk : k ∈ ks) :
    findEnvelope [(k, .vlist L)] ks = some L := by
  induction ks with
  | nil => cases hk
  | cons k' rest ih =>
    by_cases h : k' = k
    · subst h
      simp [findEnvelope, dictGet]
    · have hk' : k ∈ rest := by
        rcases List.mem_cons.mp hk with h' | h'
        · exact absurd h'.symm h
        · exact h'
      have h' : ¬k = k' := fun hh => h hh.symm
      have hget : dictGet [(k, .vlist L)] k' = none := by
        simp [dictGet, List.find?, h']
      simp [findEnvelope, hget, ih hk']

/-- **C4 (counterexample).** Shape invariance fails as stated: the item
`{"eventName": "Run"}` yields one record when presented inside a root
sequence but none when presented alone at top level, because single-item
detection scans a key list that lacks "eventName". -/
theorem C4_counterexample :
    normalize_events (.vlist [.vdict [("eventName", .vstr "Run")]]) "s" "u"
      = [{ race_name := "Run", race_date := "", city := "", distances := "",
           participant_count := "", event_id := "", timing_company := "s",
           source_url := "u", year := none }] ∧
    normalize_events (.vdict [("eventName", .vstr "Run")]) "s" "u" = [] :=
  ⟨rfl, rfl⟩

/-- **C4 (amended).** Root-sequence and enveloped shapes are always
equivalent: for every recognized envelope key `k`, the payload
`{k: items}` normalizes exactly as the root sequence `items` does. The
single-item shape is equivalent to the other two provided the item carries
one of the top-level name keys scanned by single-item detection ("name",
"event_name", "race_name", "title", "EventName") and no recognized
envelope key bound to a sequence. -/
theorem C4_shape_invariance (k : String) (L : List Val)
    (kvs : List (String × Val)) (s u : String)
    (hk : k ∈ envelopeKeys)
    (hname : hasNameKey kvs = true)
    (henv : findEnvelope kvs envelopeKeys = none) :
    normalize_events (.vdict [(k, .vlist L)]) s u
      = normalize_events (.vlist L) s u ∧
    normalize_events (.vdict kvs) s u
      = normalize_events (.vlist [.vdict kvs]) s u := by
  constructor
  · rw [normalize_events, normalize_events]
    have h1 : extract_items (.vdict [(k, .vlist L)]) = L := by
      simp [extract_items, findEnvelope_singleton k L envelopeKeys hk]
    rw [h1, extract_items]
  · rw [normalize_events, normalize_events]
    have h2 : extract_items (.vdict kvs) = [.vdict kvs] := by
      simp [extract_items, henv, hname]
    have h3 : extract_items (.vlist [.vdict kvs]) = [.vdict kvs] := rfl
    rw [h2, h3]

/-- **C4 (witness).** The theorem applied with envelope key "events" and
the item `{"name": "A"}`. -/
theorem C4_shape_invariance_witness :
    normalize_events (.vdict [("events", .vlist [.vdict [("name", .vstr "A")]])]) "s" "u"
      = normalize_events (.vlist [.vdict [("name", .vstr "A")]]) "s" "u" ∧
    normalize_events (.vdict [("name", .vstr "A")]) "s" "u"
      = normalize_events (.vlist [.vdict [("name", .vstr "A")]]) "s" "u" :=
  C4_shape_invariance "events" [.vdict [("name", .vstr "A")]]
    [("name", .vstr "A")] "s" "u" (by decide) rfl rfl

theorem first_val_cons_absent (kvs : List (String × Val)) (k : String)
    (ks : List String) (h : dictGet kvs k = none) :
    first_val kvs (k :: ks) = first_val kvs ks := by
  rw [first_val, h]

theorem first_val_cons_hit (kvs : List (String × Val)) (k : String)
    (ks : List String) (v : Val) (h : dictGet kvs k = some v)
    (hc : (!v.isNull && pyStrip (pyStr v) != "") = true) :
    first_val kvs (k :: ks) = some v := by
  rw [first_val, h]
  exact if_pos hc

theorem first_val_cons_blank (kvs : List (String × Val)) (k : String)
    (ks : List String) (v : Val) (h : dictGet kvs k = some v)
    (hc : (!v.isNull && pyStrip (pyStr v) != "") = false) :
    first_val kvs (k :: ks) = first_val kvs ks := by
  rw [first_val, h]
  exact if_neg (by simp [hc])

theorem first_val_append (kvs : List (String × Val)) (l1 l2 : List String) :
    first_val kvs (l1 ++ l2)
      = match first_val kvs l1 with
        | some v => some v
        | none => first_val kvs l2 := by
  induction l1 with
  | nil => rw [List.nil_append, first_val]
  | cons k ks ih =>
    cases hget : dictGet kvs k with
    | none =>
      rw [List.cons_append, first_val_cons_absent kvs k _ hget,
        first_val_cons_absent kvs k _ hget, ih]
    | some v =>
      cases hc : (!v.isNull && pyStrip (pyStr v) != "") with
      | true =>
        rw [List.cons_append, first_val_cons_hit kvs k _ v hget hc,
          first_val_cons_hit kvs k _ v hget hc]
      | false =>
        rw [List.cons_append, first_val_cons_blank kvs k _ v hget hc,
          first_val_cons_blank kvs k _ v hget hc, ih]

theorem first_val_eq_some (kvs : List (String × Val)) (ks : List String)
    (v : Val) (h : first_val kvs ks = some v) :
    v.isNull = false ∧ pyStrip (pyStr v) ≠ "" := by
  induction ks with
  | nil => rw [first_val] at h; cases h
  | cons k rest ih =>
    cases hget : dictGet kvs k with
    | none =>
      rw [first_val_cons_absent kvs k _ hget] at h
      exact ih h
    | some w =>
      cases hc : (!w.isNull && pyStrip (pyStr w) != "") with
      | true =>
        rw [first_val_cons_hit kvs k _ w hget hc] at h
        cases h
        simpa using hc
      | false =>
        rw [first_val_cons_blank kvs k _ w hget hc] at h
        exact ih h

theorem raceNameKeys_eq_append :
    raceNameKeys = isEventNameKeys ++ ["RaceName", "event"] := rfl

/-- **C5.** Every record `normalize_events` emits has a non-empty
`race_name`; and an item whose mapped `race_name` would be empty fails
`_is_event`, hence is dropped entirely and never emitted as a partial
record. -/
theorem C5_race_name_invariant (raw : Val) (s u : String) (r : Record)
    (kvs : List (String × Val))
    (hr : r ∈ normalize_events raw s u)
    (hempty : (normalize_item kvs s u).race_name = "") :
    r.race_name ≠ "" ∧ is_event (.vdict kvs) = false := by
  have key : ∀ kvs' : List (String × Val),
      (normalize_item kvs' s u).race_name = ""
        → is_event (.vdict kvs') = false := by
    intro kvs' hname
    rw [is_event]
    cases hfv : first_val kvs' isEventNameKeys with
    | none => rfl
    | some v =>
      exfalso
      have hrn : first_val kvs' raceNameKeys = some v := by
        rw [raceNameKeys_eq_append, first_val_append, hfv]
      have hprops := first_val_eq_some kvs' isEventNameKeys v hfv
      rw [normalize_item] at hname
      simp only [clean, hrn] at hname
      rw [if_neg (by simp [hprops.1])] at hname
      exact hprops.2 hname
  refine ⟨?_, key kvs hempty⟩
  rw [normalize_events] at hr
  rcases List.mem_filterMap.mp hr with ⟨item, _, hf⟩
  cases item with
  | vdict kvs' =>
    have hf' : (if is_event (.vdict kvs') = true
        then some (normalize_item kvs' s u) else none) = some r := hf
    by_cases hev : is_event (.vdict kvs') = true
    · rw [if_pos hev] at hf'
      cases hf'
      intro hname
      rw [key kvs' hname] at hev
      cases hev
    · rw [if_neg hev] at hf'
      cases hf'
  | vnull => cases hf
  | vbool b => cases hf
  | vint n => cases hf
  | vstr t => cases hf
  | vlist xs => cases hf

/-- **C5 (witness).** The theorem applied to the record emitted for
`[{"name": "A"}]` and the nameless item `{}`. -/
theorem C5_race_name_invariant_witness :
    (normalize_item [("name", .vstr "A")] "s" "u").race_name ≠ "" ∧
    is_event (.vdict ([] : List (String × Val))) = false :=
  C5_race_name_invariant (.vlist [.vdict [("name", .vstr "A")]]) "s" "u"
    (normalize_item [("name", .vstr "A")] "s" "u") []
    (List.mem_singleton.mpr rfl) rfl

/-- The recognized payload shapes as the claim words them: a sequence, a
mapping with some recognized envelope key bound to a sequence, or a
mapping with a recognized top-level name-like key. -/
def recognizedShape : Val → Bool
  | .vlist _ => true
  | .vdict kvs =>
      (envelopeKeys.any (fun k =>
        match dictGet kvs k with
        | some (.vlist _) => true
        | _ => false)) || hasNameKey kvs
  | _ => false

theorem findEnvelope_eq_none (kvs : List (String × Val)) (ks : List String)
    (h : (ks.any (fun k =>
      match dictGet kvs k with
      | some (.vlist _) => true
      | _ => false)) = false) :
    findEnvelope kvs ks = none := by
  induction ks with
  | nil => rfl
  | cons k rest ih =>
    rw [List.any_cons, Bool.or_eq_false_iff] at h
    rw [findEnvelope]
    cases hget : dictGet kvs k with
    | none => exact ih h.2
    | some v =>
      cases v with
      | vlist xs =>
        exfalso
        rw [hget] at h
        simp at h
      | vnull => exact ih h.2
      | vbool b => exact ih h.2
      | vint n => exact ih h.2
      | vstr t => exact ih h.2
      | vdict kvs' => exact ih h.2

theorem normalize_skips_non_dicts (items : List Val) (s u : String) :
    normalize_events (.vlist items) s u
      = normalize_events (.vlist (items.filter Val.isDict)) s u := by
  rw [normalize_events, normalize_events]
  show items.filterMap _ = (items.filter Val.isDict).filterMap _
  induction items with
  | nil => rfl
  | cons v rest ih =>
    cases v with
    | vdict kvs => simp [List.filterMap_cons, List.filter_cons, Val.isDict, ih]
    | vnull => simp [List.filterMap_cons, List.filter_cons, Val.isDict, ih]
    | vbool b => simp [List.filterMap_cons, List.filter_cons, Val.isDict, ih]
    | vint n => simp [List.filterMap_cons, List.filter_cons, Val.isDict, ih]
    | vstr t => simp [List.filterMap_cons, List.filter_cons, Val.isDict, ih]
    | vlist xs => simp [List.filterMap_cons, List.filter_cons, Val.isDict, ih]

/-- **C6.** `normalize_events` is a total function of its input (the
embedding raises nothing, mirroring that every Python operation it
performs — isinstance, `in`, `.get`, `str` — is non-raising): a payload of
unrecognized shape yields the empty list rather than an error, and
non-mapping entries inside the item list are silently skipped, yielding
the same records as if they were absent. -/
theorem C6_total_no_raise (raw : Val) (items : List Val) (s u : String)
    (h : recognizedShape raw = false) :
    normalize_events raw s u = [] ∧
    normalize_events (.vlist items) s u
      = normalize_events (.vlist (items.filter Val.isDict)) s u := by
  refine ⟨?_, normalize_skips_non_dicts items s u⟩
  cases raw with
  | vlist xs => cases h
  | vdict kvs =>
    rw [recognizedShape, Bool.or_eq_false_iff] at h
    rw [normalize_events, extract_items, findEnvelope_eq_none kvs envelopeKeys h.1]
    rw [if_neg (by simp [h.2])]
    rfl
  | vnull => rfl
  | vbool b => rfl
  | vint n => rfl
  | vstr t => rfl

/-- **C6 (witness).** The theorem applied to the integer payload `7` and
an item list mixing a string entry with a real event. -/
theorem C6_total_no_raise_witness :
    normalize_events (.vint 7) "s" "u" = [] ∧
    normalize_events (.vlist [.vstr "junk", .vdict [("name", .vstr "A")]]) "s" "u"
      = normalize_events
          (.vlist ([.vstr "junk", .vdict [("name", .vstr "A")]].filter Val.isDict))
          "s" "u" :=
  C6_total_no_raise (.vint 7) [.vstr "junk", .vdict [("name", .vstr "A")]] "s" "u" rfl

theorem findEnvelope_isSome (kvs : List (String × Val)) (ks : List String)
    (k₀ : String) (L : List Val) (hk : k₀ ∈ ks)
    (hv : dictGet kvs k₀ = some (.vlist L)) :
    ∃ l, findEnvelope kvs ks = some l := by
  induction ks with
  | nil => cases hk
  | cons k rest ih =>
    rw [findEnvelope]
    cases hget : dictGet kvs k with
    | none =>
      rcases List.mem_cons.mp hk with h' | h'
      · rw [h'] at hv; rw [hget] at hv; cases hv
      · exact ih h'
    | some v =>
      cases v with
      | vlist xs => exact ⟨xs, rfl⟩
      | vnull =>
        rcases List.mem_cons.mp hk with h' | h'
        · rw [h'] at hv; rw [hget] at hv; cases hv
        · exact ih h'
      | vbool b =>
        rcases List.mem_cons.mp hk with h' | h'
        · rw [h'] at hv; rw [hget] at hv; cases hv
        · exact ih h'
      | vint n =>
        rcases List.mem_cons.mp hk with h' | h'
        · rw [h'] at hv; rw [hget] at hv; cases hv
        · exact ih h'
      | vstr t =>
        rcases List.mem_cons.mp hk with h' | h'
        · rw [h'] at hv; rw [hget] at hv; cases hv
        · exact ih h'
      | vdict kvs' =>
        rcases List.mem_cons.mp hk with h' | h'
        · rw [h'] at hv; rw [hget] at hv; cases hv
        · exact ih h'

theorem findEnvelope_some_mem (kvs : List (String × Val)) (ks : List String)
    (l : List Val) (h : findEnvelope kvs ks = some l) :
    ∃ k ∈ ks, dictGet kvs k = some (.vlist l) := by
  induction ks with
  | nil => rw [findEnvelope] at h; cases h
  | cons k rest ih =>
    rw [findEnvelope] at h
    cases hget : dictGet kvs k with
    | none =>
      rw [hget] at h
      rcases ih h with ⟨k', hk', hg'⟩
      exact ⟨k', List.mem_cons_of_mem _ hk', hg'⟩
    | some v =>
      rw [hget] at h
      cases v with
      | vlist xs =>
        cases h
        exact ⟨k, List.mem_cons_self _ _, hget⟩
      | vnull =>
        rcases ih h with ⟨k', hk', hg'⟩
        exact ⟨k', List.mem_cons_of_mem _ hk', hg'⟩
      | vbool b =>
        rcases ih h with ⟨k', hk', hg'⟩
        exact ⟨k', List.mem_cons_of_mem _ hk', hg'⟩
      | vint n =>
        rcases ih h with ⟨k', hk', hg'⟩
        exact ⟨k', List.mem_cons_of_mem _ hk', hg'⟩
      | vstr t =>
        rcases ih h with ⟨k', hk', hg'⟩
        exact ⟨k', List.mem_cons_of_mem _ hk', hg'⟩
      | vdict kvs' =>
        rcases ih h with ⟨k', hk', hg'⟩
        exact ⟨k', List.mem_cons_of_mem _ hk', hg'⟩

theorem envelope_value_not_self (kvs : List (String × Val)) (l : List Val)
    (k : String) (h : dictGet kvs k = some (.vlist l)) :
    (Val.vdict kvs) ∉ l := by
  intro hmem
  rw [dictGet] at h
  rcases Option.map_eq_some'.mp h with ⟨pair, hfind, hsnd⟩
  have hp : pair ∈ kvs := List.mem_of_find?_eq_some hfind
  have h1 : sizeOf pair < sizeOf kvs := List.sizeOf_lt_of_mem hp
  have h2 : sizeOf (Val.vdict kvs) < sizeOf l := List.sizeOf_lt_of_mem hmem
  rcases pair with ⟨a, b⟩
  simp only [Prod.snd] at hsnd
  subst hsnd
  simp only [Prod.mk.sizeOf_spec, Val.vlist.sizeOf_spec, Val.vdict.sizeOf_spec] at h1 h2
  omega

/-- **C7.** A mapping payload with both a recognized envelope key bound to
a sequence and a top-level recognized name-like key is treated as a
collection: some envelope key's sequence becomes the item list (the first
present one in the scan order), that list is never the single-item
wrapping of the payload itself, and normalization proceeds exactly as on
that sequence. -/
theorem C7_envelope_priority (kvs : List (String × Val)) (k₀ : String)
    (L : List Val) (hk : k₀ ∈ envelopeKeys)
    (hv : dictGet kvs k₀ = some (.vlist L))
    (hname : hasNameKey kvs = true) :
    ∃ l, findEnvelope kvs envelopeKeys = some l ∧
      extract_items (.vdict kvs) = l ∧
      extract_items (.vdict kvs) ≠ [.vdict kvs] ∧
      (∃ k ∈ envelopeKeys, dictGet kvs k = some (.vlist l)) ∧
      ∀ s u : String,
        normalize_events (.vdict kvs) s u = normalize_events (.vlist l) s u := by
  rcases findEnvelope_isSome kvs envelopeKeys k₀ L hk hv with ⟨l, hfe⟩
  have hext : extract_items (.vdict kvs) = l := by
    rw [extract_items, hfe]
  rcases findEnvelope_some_mem kvs envelopeKeys l hfe with ⟨k, hkk, hgetk⟩
  refine ⟨l, hfe, hext, ?_, ⟨k, hkk, hgetk⟩, ?_⟩
  · intro hself
    rw [hext] at hself
    have : (Val.vdict kvs) ∈ l := by
      rw [hself]
      exact List.mem_singleton.mpr rfl
    exact envelope_value_not_self kvs l k hgetk this
  · intro s u
    rw [normalize_events, normalize_events, hext]
    rfl

/-- **C7 (witness).** The theorem applied to
`{"events": [], "name": "A"}`. -/
theorem C7_envelope_priority_witness :
    ∃ l, findEnvelope [("events", .vlist []), ("name", .vstr "A")] envelopeKeys
        = some l ∧
      extract_items (.vdict [("events", .vlist []), ("name", .vstr "A")]) = l ∧
      extract_items (.vdict [("events", .vlist []), ("name", .vstr "A")])
        ≠ [.vdict [("events", .vlist []), ("name", .vstr "A")]] ∧
      (∃ k ∈ envelopeKeys,
        dictGet [("events", .vlist []), ("name", .vstr "A")] k
          = some (.vlist l)) ∧
      ∀ s u : String,
        normalize_events (.vdict [("events", .vlist []), ("name", .vstr "A")]) s u
          = normalize_events (.vlist l) s u :=
  C7_envelope_priority [("events", .vlist []), ("name", .vstr "A")] "events" []
    (by decide) rfl rfl

/-- **C8.** The end-to-end example: the payload
`{"events": [{"EventName": "Goa River Marathon", "EventDate": "2024-09-01",
"total_runners": 1500}]}` with source "STS" and source_url "https://x/y"
yields exactly the one documented record, the integer participant count
coerced to its decimal string form. -/
theorem C8_goa_example :
    normalize_events
      (.vdict [("events", .vlist [.vdict
        [("EventName", .vstr "Goa River Marathon"),
         ("EventDate", .vstr "2024-09-01"),
         ("total_runners", .vint 1500)]])])
      "STS" "https://x/y"
    = [{ race_name := "Goa River Marathon", race_date := "2024-09-01",
         city := "", distances := "", participant_count := "1500",
         event_id := "", timing_company := "STS",
         source_url := "https://x/y", year := none }] := rfl

/-- The eight schema entries of a canonical record, as the mapping a
caller would feed back into `normalize_events`. -/
def canonEntries (r : Record) : List (String × Val) :=
  [("race_name", .vstr r.race_name), ("race_date", .vstr r.race_date),
   ("city", .vstr r.city), ("distances", .vstr r.distances),
   ("participant_count", .vstr r.participant_count),
   ("event_id", .vstr r.event_id),
   ("timing_company", .vstr r.timing_company),
   ("source_url", .vstr r.source_url)]

/-- A canonical record re-presented as a single-item mapping payload. -/
def toItemVal (r : Record) : Val := .vdict (canonEntries r)


theorem pyStrip_empty : pyStrip "" = "" := rfl

theorem normalize_item_canonical (r : Record) (s u : String)
    (h1 : pyStrip r.race_name = r.race_name)
    (h2 : pyStrip r.race_date = r.race_date)
    (h3 : pyStrip r.city = r.city)
    (h4 : pyStrip r.distances = r.distances)
    (h5 : pyStrip r.participant_count = r.participant_count)
    (h6 : pyStrip r.event_id = r.event_id)
    (hne : r.race_name ≠ "") :
    normalize_item (canonEntries r) s u
      = { r with timing_company := s, source_url := u, year := none } := by
  by_cases hd : r.race_date = "" <;> by_cases hc : r.city = "" <;>
    by_cases hdi : r.distances = "" <;> by_cases hp : r.participant_count = "" <;>
    by_cases he : r.event_id = "" <;>
    simp [normalize_item, canonEntries, clean, first_val, dictGet, List.find?,
      raceNameKeys, raceDateKeys, cityKeys, distancesKeys, participantCountKeys,
      eventIdKeys, pyStr, Val.isNull, pyStrip_empty,
      h1, h2, h3, h4, h5, h6, hne, hd, hc, hdi, hp, he]

/-- **C9.** Re-normalizing a canonical record (all eight schema fields
present as already-trimmed strings, race_name non-empty) — given either as
a single-item mapping or inside a one-element list — yields exactly one
record agreeing with the original on race_name, race_date, city,
distances, participant_count and event_id (provenance fields are replaced
by the caller's arguments). -/
theorem C9_renormalize_canonical (r : Record) (s u : String)
    (h1 : pyStrip r.race_name = r.race_name)
    (h2 : pyStrip r.race_date = r.race_date)
    (h3 : pyStrip r.city = r.city)
    (h4 : pyStrip r.distances = r.distances)
    (h5 : pyStrip r.participant_count = r.participant_count)
    (h6 : pyStrip r.event_id = r.event_id)
    (h7 : pyStrip r.timing_company = r.timing_company)
    (h8 : pyStrip r.source_url = r.source_url)
    (hne : r.race_name ≠ "") :
    normalize_events (toItemVal r) s u
      = [{ r with timing_company := s, source_url := u, year := none }] ∧
    normalize_events (.vlist [toItemVal r]) s u
      = [{ r with timing_company := s, source_url := u, year := none }] := by
  have hfv : first_val (canonEntries r) isEventNameKeys = some (.vstr r.race_name) := by
    rw [show isEventNameKeys
        = "event_name" :: "name" :: "race_name" :: ["title", "EventName", "eventName"]
      from rfl]
    rw [first_val_cons_absent (canonEntries r) "event_name" _ rfl,
      first_val_cons_absent (canonEntries r) "name" _ rfl]
    exact first_val_cons_hit (canonEntries r) "race_name" _ (.vstr r.race_name)
      rfl (by simp [Val.isNull, pyStr, h1, hne])
  have hev : is_event (toItemVal r) = true := by
    rw [toItemVal, is_event, hfv]
    simp [pyTruthy, pyStr, h1, hne]
  have hone : ∀ raw : Val, extract_items raw = [toItemVal r]
      → normalize_events raw s u
          = [{ r with timing_company := s, source_url := u, year := none }] := by
    intro raw hext
    rw [normalize_events, hext]
    rw [show (toItemVal r) = .vdict (canonEntries r) from rfl]
    rw [List.filterMap]
    simp only [show is_event (.vdict (canonEntries r)) = true from hev, if_pos]
    rw [normalize_item_canonical r s u h1 h2 h3 h4 h5 h6 hne]
    rfl
  exact ⟨hone (toItemVal r) rfl, hone (.vlist [toItemVal r]) rfl⟩

/-- **C9 (witness).** The theorem applied to a concrete canonical
record. -/
theorem C9_renormalize_canonical_witness :
    normalize_events (toItemVal (sampleRec "Goa Run" "2024-05-01")) "IF" "https://z"
      = [{ sampleRec "Goa Run" "2024-05-01" with
           timing_company := "IF", source_url := "https://z", year := none }] ∧
    normalize_events (.vlist [toItemVal (sampleRec "Goa Run" "2024-05-01")]) "IF" "https://z"
      = [{ sampleRec "Goa Run" "2024-05-01" with
           timing_company := "IF", source_url := "https://z", year := none }] :=
  C9_renormalize_canonical (sampleRec "Goa Run" "2024-05-01") "IF" "https://z"
    rfl rfl rfl rfl rfl rfl rfl rfl (by decide)
